import Mathlib

/-!
# vinom-game-server: game instance and session registry

A shallow embedding of `service/game.go` and `service/game_session_manager.go`.

* The maze engine and the codec are interfaces implemented outside the
  repository; they are taken as records of functions (`Maze`, `GameEncoder`)
  over an arbitrary maze state type `M`, move type `Mv` and direction type `D`.
* Go maps are association lists (`GoMap`) with the map operations the code
  uses: lookup, assignment, `delete`.
* Channels carry an explicit state (closed or not, buffered elements) so that
  a send on a closed channel, a close of a closed channel and a send on a full
  buffer are visible as faults of a run.
* Goroutines spawned by the dispatcher are run to completion in place: the
  embedding is the sequential behaviour of each handler.
-/

namespace Vinom

/-! ## Bytes, identifiers, Go maps -/

/-- A Go `byte`. -/
abbrev Byte := Fin 256

/-- A `uuid.UUID`: an array of 16 bytes. -/
structure UUID where
  bytes : List Byte
  size : bytes.length = 16
deriving DecidableEq

/-- The identifier whose last byte is `b` and whose other bytes are zero. -/
def UUID.ofByte (b : Byte) : UUID :=
  ⟨[0, 0, 0, 0, 0, 0, 0, 0, 0, 0, 0, 0, 0, 0, 0, b], rfl⟩

/-- Function `uuid.FromBytes`: succeeds exactly on slices of 16 bytes. -/
def UUID.FromBytes (s : List Byte) : Option UUID :=
  if h : s.length = 16 then some ⟨s, h⟩ else none

/-- A Go map as an association list; the first entry of a key is the live one. -/
abbrev GoMap (K V : Type) := List (K × V)

namespace GoMap

variable {K V : Type} [DecidableEq K]

/-- Lookup `v, ok := m[k]`. -/
def get? : GoMap K V → K → Option V
  | [], _ => none
  | (k', v) :: rest, k => if k' = k then some v else get? rest k

/-- Assignment `m[k] = v`. -/
def set : GoMap K V → K → V → GoMap K V
  | [], k, v => [(k, v)]
  | (k', v') :: rest, k, v => if k' = k then (k, v) :: rest else (k', v') :: set rest k v

/-- Builtin `delete(m, k)`. -/
def delete (m : GoMap K V) (k : K) : GoMap K V :=
  m.filter (fun e => decide (e.1 ≠ k))

/-- Presence test `_, ok := m[k]`. -/
def contains (m : GoMap K V) (k : K) : Bool := (get? m k).isSome

end GoMap

/-! ## Machine integers -/

/-- Two's-complement wrap of an `int32` result. -/
def wrapInt32 (x : Int) : Int := (x + 2 ^ 31) % 2 ^ 32 - 2 ^ 31

/-- Two's-complement wrap of an `int64` (and `int`) result. -/
def wrapInt64 (x : Int) : Int := (x + 2 ^ 63) % 2 ^ 64 - 2 ^ 63

/-! ## Value objects built by the codec -/

/-- A cell position: `GetRow`, `GetCol` (both `int32`). -/
structure CellPosition where
  row : Int
  col : Int
deriving DecidableEq, Repr

/-- A player: `GetID`, `RetrivePos`, `GetReward`. The reward is taken to be an
`int32`, like the positions and the magnitudes of the reward model. -/
structure Player where
  id : UUID
  pos : CellPosition
  reward : Int
deriving DecidableEq

/-- A decoded move action: `GetID`, `RetriveFrom`, `GetDirection`. -/
structure Action (D : Type) where
  id : UUID
  retriveFrom : CellPosition
  direction : D

/-- A state snapshot: `SetVersion`, `SetMaze`, `SetPlayers`. -/
structure GameState (M : Type) where
  version : Int
  maze : M
  players : List Player

/-- The reward model handed to `PopulateReward`: two reward magnitudes and the
probability of the first, kept in percent. -/
structure RewardModel where
  RewardOne : Int
  RewardTwo : Int
  RewardTypeProbPercent : Nat
deriving DecidableEq

/-- The maze engine interface `game_i.Maze`, as functions on a maze state `M`.
Methods that mutate the maze return the new maze. Errors that the callers
discard (`RemoveReward`, `Move`) are not represented. -/
structure Maze (M Mv D : Type) where
  Width : M → Int
  Height : M → Int
  InBound : M → Int → Int → Bool
  RemoveReward : M → CellPosition → M
  NewValidMove : M → CellPosition → D → Option Mv
  Move : M → Mv → Int × M
  To : Mv → CellPosition
  GetTotalReward : M → Int
  PopulateReward : M → RewardModel → Option M

/-- The codec interface `game_i.GameEncoder`. -/
structure GameEncoder (M D : Type) where
  UnmarshalAction : List Byte → Option (Action D)
  MarshalGameState : GameState M → Option (List Byte)
  NewPlayer : Player
  NewCellPosition : CellPosition

/-! ## `service/game.go` -/

/-- The errors declared in `game.go`. -/
inductive GameError where
  | ErrTooManyPlayers
  | ErrNotEnoughPlayers
  | ErrNotBigEnoughDimension
  | ErrInvalidPlayerPosition
deriving DecidableEq, Repr

/-- Constant `moveActionType = 3 << iota` on the first line of the const block (iota = 0). -/
def moveActionType : Nat := 3 <<< 0

/-- Constant `stateRequestActionType`: the implicit repetition of `3 << iota` on the
second line of the const block (iota = 1). -/
def stateRequestActionType : Nat := 3 <<< 1

def minPlayers : Nat := 2

def maxPlayers : Nat := 4

def minDimension : Int := 3

/-- State of the `stop` channel, `make(chan bool, 1)`. -/
structure StopChan where
  buffered : Nat
  closed : Bool
deriving DecidableEq, Repr

/-- The `Game` struct. The three unbuffered channels are represented by their
closed flag; the lock and the wait group have no sequential state. -/
structure Game (M D : Type) where
  maze : M
  players : GoMap UUID Player
  version : Int
  encoder : GameEncoder M D
  stop : StopChan
  rewardsLeft : Int
  stateChanClosed : Bool
  actionChanClosed : Bool
  endChanClosed : Bool

section NewGame

variable {M Mv D : Type}

/-- The maze engine contract used for `NewGame`: removing a reward does not
move the bounds of the maze. -/
def Maze.BoundsStable (ops : Maze M Mv D) : Prop :=
  ∀ (m : M) (pos : CellPosition) (row col : Int),
    ops.InBound (ops.RemoveReward m pos) row col = ops.InBound m row col

/-- The loop of `NewGame` over the players: bound check, map insertion, reward
removal at the starting cell. `none` is the `ErrInvalidPlayerPosition` return. -/
def NewGame.loop (ops : Maze M Mv D) :
    M → GoMap UUID Player → List Player → Option (M × GoMap UUID Player)
  | maze, playersMap, [] => some (maze, playersMap)
  | maze, playersMap, player :: rest =>
    if !ops.InBound maze player.pos.row player.pos.col then none
    else NewGame.loop ops (ops.RemoveReward maze player.pos)
      (playersMap.set player.id player) rest

/-- Function `NewGame`. -/
def NewGame (ops : Maze M Mv D) (maze : M) (players : List Player)
    (e : GameEncoder M D) : Except GameError (Game M D) :=
  if players.length > maxPlayers then .error .ErrTooManyPlayers
  else if players.length < minPlayers then .error .ErrNotEnoughPlayers
  else if ops.Width maze < minDimension ∨ ops.Height maze < minDimension then
    .error .ErrNotBigEnoughDimension
  else
    match NewGame.loop ops maze [] players with
    | none => .error .ErrInvalidPlayerPosition
    | some (maze', playersMap) =>
      .ok
        { maze := maze'
          players := playersMap
          version := 0
          encoder := e
          stop := ⟨0, false⟩
          rewardsLeft := wrapInt64 (ops.Width maze' * ops.Height maze')
          stateChanClosed := false
          actionChanClosed := false
          endChanClosed := false }

end NewGame

/-! ### Runs of the game instance -/

/-- How a call can fail to return: a Go runtime panic (send on or close of a
closed channel), or a send that blocks on a full buffer. -/
inductive Fault where
  | panic
  | blocked
deriving DecidableEq, Repr

/-- Channel operations of a call, in order. -/
inductive Event where
  | stopSignal
  | closeActionChan
  | closeStateChan
  | closeEndChan
  | stateSnapshot (payload : List Byte)
  | endSnapshot (payload : List Byte)
deriving DecidableEq, Repr

/-- Result of running a method of `Game`: the state reached, the channel
operations performed, and the fault that ended the call, if any. -/
structure Run (M D : Type) where
  game : Game M D
  trace : List Event
  fault : Option Fault

section GameMethods

variable {M Mv D : Type}

/-- A call that returns at once. -/
def Run.done (g : Game M D) : Run M D := ⟨g, [], none⟩

/-- Sequencing: the next statement runs only if the previous ones returned. -/
def Run.andThen (r : Run M D) (f : Game M D → Run M D) : Run M D :=
  match r.fault with
  | some _ => r
  | none =>
    let r2 := f r.game
    ⟨r2.game, r.trace ++ r2.trace, r2.fault⟩

/-- The send `g.stop <- true` on the channel of capacity 1. -/
def sendStop (g : Game M D) : Run M D :=
  if g.stop.closed then ⟨g, [], some .panic⟩
  else if g.stop.buffered ≥ 1 then ⟨g, [], some .blocked⟩
  else ⟨{ g with stop := ⟨g.stop.buffered + 1, false⟩ }, [.stopSignal], none⟩

/-- The statement `close(g.actionChan)`. -/
def closeActionChan (g : Game M D) : Run M D :=
  if g.actionChanClosed then ⟨g, [], some .panic⟩
  else ⟨{ g with actionChanClosed := true }, [.closeActionChan], none⟩

/-- The statement `close(g.stateChan)`. -/
def closeStateChan (g : Game M D) : Run M D :=
  if g.stateChanClosed then ⟨g, [], some .panic⟩
  else ⟨{ g with stateChanClosed := true }, [.closeStateChan], none⟩

/-- The statement `close(g.endChan)`. -/
def closeEndChan (g : Game M D) : Run M D :=
  if g.endChanClosed then ⟨g, [], some .panic⟩
  else ⟨{ g with endChanClosed := true }, [.closeEndChan], none⟩

/-- Method `snapshot`. -/
def snapshot (g : Game M D) : GameState M :=
  { version := g.version, maze := g.maze, players := g.players.map Prod.snd }

/-- Method `broadcastState`; the session listener is taken to be receiving. -/
def broadcastState (ended : Bool) (g : Game M D) : Run M D :=
  match g.encoder.MarshalGameState (snapshot g) with
  | none => Run.done g
  | some gameStatePayload =>
    if ended then
      if g.endChanClosed then ⟨g, [], some .panic⟩
      else ⟨g, [.endSnapshot gameStatePayload], none⟩
    else
      if g.stateChanClosed then ⟨g, [], some .panic⟩
      else ⟨g, [.stateSnapshot gameStatePayload], none⟩

/-- Method `Stop`: the send on the stop channel, the closes of the action and
state channels, the terminal broadcast, the close of the end channel. With
every spawned handler run in place no goroutine is in flight, so `Wg.Wait()`
returns at once. -/
def Stop (g : Game M D) : Run M D :=
  (((sendStop g).andThen closeActionChan).andThen closeStateChan).andThen
    (fun g1 => (broadcastState true g1).andThen closeEndChan)

/-- The state update of an accepted move in `handleIncomingMove`: the maze
move, the reward added to the player, the new position, `g.version++`. -/
def handleIncomingMove.apply (ops : Maze M Mv D) (g : Game M D) (a : Action D) (p : Player)
    (move : Mv) : Game M D :=
  let moved := ops.Move g.maze move
  let p1 : Player := { p with reward := wrapInt32 (p.reward + moved.1), pos := ops.To move }
  { g with
    maze := moved.2
    players := g.players.set a.id p1
    version := wrapInt64 (g.version + 1) }

/-- Method `handleIncomingMove`. -/
def handleIncomingMove (ops : Maze M Mv D) (g : Game M D) (a : Action D) : Run M D :=
  match g.players.get? a.id with
  | none => Run.done g
  | some p =>
    let curPosition := p.pos
    if curPosition.row ≠ a.retriveFrom.row ∨ curPosition.col ≠ a.retriveFrom.col then
      Run.done g
    else
      match ops.NewValidMove g.maze curPosition a.direction with
      | none => Run.done g
      | some move =>
        let g1 := handleIncomingMove.apply ops g a p move
        if ops.GetTotalReward g1.maze = 0 then Stop g1
        else broadcastState false g1

/-- An instance on which `Stop` has not been called: nothing in the stop
channel, no channel closed. -/
def Game.Running (g : Game M D) : Prop :=
  g.stop = ⟨0, false⟩ ∧ g.stateChanClosed = false ∧ g.actionChanClosed = false ∧
    g.endChanClosed = false

/-- Method `handleAction`; the two goroutines it starts are run in place. -/
def handleAction (ops : Maze M Mv D) (g : Game M D) (t : Byte) (move : List Byte) :
    Run M D :=
  if t.val = stateRequestActionType then broadcastState false g
  else if t.val = moveActionType then
    match g.encoder.UnmarshalAction move with
    | none => Run.done g
    | some a => handleIncomingMove ops g a
  else Run.done g

/-- The `case action := <-g.actionChan` branch of the loop of `Start`, with
the handler it calls as a parameter. -/
def Start.actionCaseWith (handler : Game M D → Byte → List Byte → Run M D)
    (g : Game M D) (action : List Byte) : Run M D :=
  if action.length < 2 then Run.done g
  else
    match action with
    | [] => Run.done g
    | t :: body => handler g t body

/-- The `case action := <-g.actionChan` branch of the loop of `Start`. -/
def Start.actionCase (ops : Maze M Mv D) (g : Game M D) (action : List Byte) : Run M D :=
  Start.actionCaseWith (handleAction ops) g action

/-- The `case <-x.C` branch of the loop of `Start`. -/
def Start.tickCase (g : Game M D) : Run M D := broadcastState false g

/-- The `case <-g.stop` branch of the loop of `Start`: the signal is taken out
of the buffer, the channel is closed, the loop returns. -/
def Start.stopCase (g : Game M D) : Game M D :=
  { g with stop := ⟨g.stop.buffered - 1, true⟩ }

end GameMethods

/-! ## `service/game_session_manager.go` -/

def defaultMazeSize : Int := 10

/-- The table `defaultPlayerPositions` of (row, col) pairs. -/
def defaultPlayerPositions : List (Int × Int) := [(0, 0), (9, 9), (9, 0), (0, 9)]

/-- The three errors built with `errors.New` in the session manager. -/
inductive ManagerError where
  | noSession
  | invalidToken
  | playerHasNoSession
deriving DecidableEq, Repr

/-- The text each error is built from. -/
def ManagerError.text : ManagerError → String
  | .noSession => "No Session"
  | .invalidToken => "invalid token"
  | .playerHasNoSession => "player does not have game session"

/-- An entry of the session table; `gameSession` is `none` for the nil
interface value of a zero entry. -/
structure Session (G : Type) where
  gameSession : Option G
  players : List UUID

/-- The two maps of `GameSessionManager`. -/
structure GameSessionManager (G : Type) where
  sessions : GoMap UUID (Session G)
  playerToSession : GoMap UUID UUID

/-- The part of the transport that `SessionInfo` reads. -/
structure Socket where
  GetPublicKey : List Byte
  GetAddr : String

/-- The collaborators injected through `Config`, with the method table of the
mazes the factory returns. -/
structure Config (M Mv D : Type) where
  MazeFactory : Int → Int → Option M
  mazeOps : Maze M Mv D
  GameEndcoder : GameEncoder M D

section Manager

variable {G : Type}

/-- Function `NewGameSessionManager`: both maps empty. -/
def NewGameSessionManager : GameSessionManager G := ⟨[], []⟩

/-- The expression `g.sessions[id]`: the zero entry when the key is absent. -/
def GameSessionManager.sessionAt (g : GameSessionManager G) (id : UUID) : Session G :=
  (g.sessions.get? id).getD ⟨none, []⟩

/-- The id loop of `saveSession`; `draws` are the successive results of
`uuid.New()`. `none` when every draw of the list is already a session id. -/
def saveSession.sessionID (sessions : GoMap UUID (Session G)) : List UUID → Option UUID
  | [] => none
  | d :: draws => if sessions.contains d then saveSession.sessionID sessions draws else some d

/-- Method `saveSession`. -/
def saveSession (g : GameSessionManager G) (draws : List UUID) (players : List UUID)
    (gs : G) : Option (GameSessionManager G × UUID) :=
  match saveSession.sessionID g.sessions draws with
  | none => none
  | some sessionID =>
    some
      ({ sessions := g.sessions.set sessionID ⟨some gs, players⟩
         playerToSession :=
           players.foldl (fun m player => m.set player sessionID) g.playerToSession },
        sessionID)

/-- Method `clean`. -/
def clean (g : GameSessionManager G) (ID : UUID) : GameSessionManager G :=
  { sessions := g.sessions.delete ID
    playerToSession :=
      (g.sessionAt ID).players.foldl (fun m pID => m.delete pID) g.playerToSession }

/-- Method `SessionInfo`. -/
def SessionInfo (g : GameSessionManager G) (socket : Socket) (playerID : UUID) :
    Except ManagerError (List Byte × String) :=
  if !g.playerToSession.contains playerID then .error .noSession
  else .ok (socket.GetPublicKey, socket.GetAddr)

/-- Method `Authenticate`. -/
def Authenticate (g : GameSessionManager G) (s : List Byte) : Except ManagerError UUID :=
  match UUID.FromBytes s with
  | none => .error .invalidToken
  | some id =>
    if !g.playerToSession.contains id then .error .playerHasNoSession
    else .ok id

/-- What `writePlayerRequest` does with a request. -/
inductive Routed (G : Type) where
  | dropped
  | nilGameServer
  | sent (gameServer : G) (record : List Byte)

/-- Method `writePlayerRequest`: the record sent on the action channel of the
player's session. -/
def writePlayerRequest (g : GameSessionManager G) (pID : UUID) (actionType : Byte)
    (payload : List Byte) : Routed G :=
  match g.playerToSession.get? pID with
  | none => .dropped
  | some sessionID =>
    match (g.sessionAt sessionID).gameSession with
    | none => .nilGameServer
    | some gameServer => .sent gameServer ([actionType] ++ payload)

end Manager

section NewSession

variable {M Mv D : Type}

/-- How a call of `NewSession` ended. -/
inductive NewSessionOutcome where
  | tooManyPlayers
  | mazeFactoryError
  | populateRewardError
  | newGameError (err : GameError)
  | sessionIDPending
  | started (sessionID : UUID)
deriving DecidableEq

/-- The loop of `NewSession` that builds the player objects. -/
def NewSession.players (e : GameEncoder M D) (playerIDs : List UUID) : List Player :=
  playerIDs.enum.map fun (i, pID) =>
    let corner := defaultPlayerPositions.getD i (0, 0)
    let pos : CellPosition := { e.NewCellPosition with row := corner.1, col := corner.2 }
    { e.NewPlayer with id := pID, pos := pos }

/-- Method `NewSession`: the manager state after the call and how the call ended.
The two goroutines started after registration act on the game instance only. -/
def NewSession (c : Config M Mv D) (g : GameSessionManager (Game M D)) (draws : List UUID)
    (playerIDs : List UUID) : GameSessionManager (Game M D) × NewSessionOutcome :=
  if playerIDs.length > maxPlayers then (g, .tooManyPlayers)
  else
    let players := NewSession.players c.GameEndcoder playerIDs
    match c.MazeFactory 20 defaultMazeSize with
    | none => (g, .mazeFactoryError)
    | some maze =>
      match c.mazeOps.PopulateReward maze ⟨1, 5, 90⟩ with
      | none => (g, .populateRewardError)
      | some maze1 =>
        match NewGame c.mazeOps maze1 players c.GameEndcoder with
        | .error err => (g, .newGameError err)
        | .ok gameServer =>
          match saveSession g draws playerIDs gameServer with
          | none => (g, .sessionIDPending)
          | some (g1, sessionID) => (g1, .started sessionID)

end NewSession

/-! ### States of the registry -/

section Reach

variable {G : Type}

/-- Player `p` is in the participant list of session `s` of the session table. -/
def PlayerInSession (g : GameSessionManager G) (p s : UUID) : Prop :=
  ∃ e, g.sessions.get? s = some e ∧ p ∈ e.players

/-- The states reached from the empty registry by registrations that return
(`saveSession`) and clean-ups (`clean`), in any order and for any arguments. -/
inductive Reachable : GameSessionManager G → Prop where
  | empty : Reachable NewGameSessionManager
  | save (g g1 : GameSessionManager G) (draws players : List UUID) (gs : G) (sessionID : UUID) :
      Reachable g → saveSession g draws players gs = some (g1, sessionID) → Reachable g1
  | clean (g : GameSessionManager G) (ID : UUID) : Reachable g → Reachable (clean g ID)

/-- The states reached when every registration is for player ids that are in
no session of the table at the time of the call. -/
inductive ReachableUnbound : GameSessionManager G → Prop where
  | empty : ReachableUnbound NewGameSessionManager
  | save (g g1 : GameSessionManager G) (draws players : List UUID) (gs : G) (sessionID : UUID) :
      ReachableUnbound g → (∀ p ∈ players, ∀ s, ¬ PlayerInSession g p s) →
      saveSession g draws players gs = some (g1, sessionID) → ReachableUnbound g1
  | clean (g : GameSessionManager G) (ID : UUID) :
      ReachableUnbound g → ReachableUnbound (clean g ID)

/-- Every entry `p -> s` of the player index points at a session of the table
that lists `p` and holds a game instance. -/
def IndexSound (g : GameSessionManager G) : Prop :=
  ∀ p s, g.playerToSession.get? p = some s →
    ∃ e, g.sessions.get? s = some e ∧ p ∈ e.players ∧ e.gameSession ≠ none

end Reach

/-! ## Concrete collaborators for the instances -/

/-- A wall-less grid with a reward table, the concrete maze of the instances. -/
structure Grid where
  width : Int
  height : Int
  rewards : List (CellPosition × Int)
deriving DecidableEq

/-- Destination of a step from `pos`: 0 up, 1 down, 2 right, anything else left. -/
def Grid.step (pos : CellPosition) (d : Nat) : CellPosition :=
  if d = 0 then ⟨pos.row - 1, pos.col⟩
  else if d = 1 then ⟨pos.row + 1, pos.col⟩
  else if d = 2 then ⟨pos.row, pos.col + 1⟩
  else ⟨pos.row, pos.col - 1⟩

def Grid.inBound (m : Grid) (row col : Int) : Bool :=
  decide (0 ≤ row ∧ row < m.height ∧ 0 ≤ col ∧ col < m.width)

def Grid.rewardAt (m : Grid) (pos : CellPosition) : Int :=
  ((m.rewards.filter (fun e => decide (e.1 = pos))).map Prod.snd).sum

def Grid.without (m : Grid) (pos : CellPosition) : Grid :=
  { m with rewards := m.rewards.filter (fun e => decide (e.1 ≠ pos)) }

/-- The method table of `Grid`; a move is its destination cell. -/
def gridOps : Maze Grid CellPosition Nat where
  Width := fun m => m.width
  Height := fun m => m.height
  InBound := Grid.inBound
  RemoveReward := Grid.without
  NewValidMove := fun m pos d =>
    if Grid.inBound m (Grid.step pos d).row (Grid.step pos d).col then some (Grid.step pos d)
    else none
  Move := fun m mv => (Grid.rewardAt m mv, Grid.without m mv)
  To := fun mv => mv
  GetTotalReward := fun m => (m.rewards.map Prod.snd).sum
  PopulateReward := fun m _ => some m

/-- A codec for the instances: an action body is id byte, row, column,
direction; a snapshot is encoded as its version byte. -/
def byteCodec : GameEncoder Grid Nat where
  UnmarshalAction := fun body =>
    match body with
    | [i, r, c, d] => some ⟨UUID.ofByte i, ⟨r.val, c.val⟩, d.val⟩
    | _ => none
  MarshalGameState := fun st => some [Fin.ofNat st.version.toNat]
  NewPlayer := ⟨UUID.ofByte 0, ⟨0, 0⟩, 0⟩
  NewCellPosition := ⟨0, 0⟩

/-- A 3 by 3 grid with one reward of 1 at (0,1) and one of 5 at (2,2). -/
def grid3 : Grid := ⟨3, 3, [(⟨0, 1⟩, 1), (⟨2, 2⟩, 5)]⟩

def playerA : Player := ⟨UUID.ofByte 1, ⟨0, 0⟩, 0⟩

def playerB : Player := ⟨UUID.ofByte 2, ⟨2, 0⟩, 0⟩

/-- The running instance `NewGame` builds from `grid3`, `playerA`, `playerB`. -/
def game3 : Game Grid Nat :=
  { maze := grid3
    players := [(UUID.ofByte 1, playerA), (UUID.ofByte 2, playerB)]
    version := 0
    encoder := byteCodec
    stop := ⟨0, false⟩
    rewardsLeft := 9
    stateChanClosed := false
    actionChanClosed := false
    endChanClosed := false }

/-- Player A's move to the right with claimed origin (0,0). -/
def moveRightA : Action Nat := ⟨UUID.ofByte 1, ⟨0, 0⟩, 2⟩

/-- The session manager configuration of the instances: the factory returns an
empty grid of the requested size. -/
def gridConfig : Config Grid CellPosition Nat where
  MazeFactory := fun w h => some ⟨w, h, []⟩
  mazeOps := gridOps
  GameEndcoder := byteCodec

/-- A registry with one session of players 1 and 2 under session id 101. -/
def registry1 : GameSessionManager (Game Grid Nat) :=
  { sessions := [(UUID.ofByte 101, ⟨some game3, [UUID.ofByte 1, UUID.ofByte 2]⟩)]
    playerToSession := [(UUID.ofByte 1, UUID.ofByte 101), (UUID.ofByte 2, UUID.ofByte 101)] }

/-- The registry after players 1 and 2 are registered a second time, under
session id 102, while session 101 is in the table. -/
def registry2 : GameSessionManager (Game Grid Nat) :=
  { sessions :=
      [(UUID.ofByte 101, ⟨some game3, [UUID.ofByte 1, UUID.ofByte 2]⟩),
        (UUID.ofByte 102, ⟨some game3, [UUID.ofByte 1, UUID.ofByte 2]⟩)]
    playerToSession := [(UUID.ofByte 1, UUID.ofByte 102), (UUID.ofByte 2, UUID.ofByte 102)] }

/-- A codec whose `MarshalGameState` returns an error on every state. -/
def failingCodec : GameEncoder Grid Nat where
  UnmarshalAction := byteCodec.UnmarshalAction
  MarshalGameState := fun _ => none
  NewPlayer := byteCodec.NewPlayer
  NewCellPosition := byteCodec.NewCellPosition

/-- The running game `game3` with the failing codec. -/
def game3Mute : Game Grid Nat := { game3 with encoder := failingCodec }

/-- The running game `game3` on a maze whose only reward left is the 1 at (0,1). -/
def gameLast : Game Grid Nat := { game3 with maze := ⟨3, 3, [(⟨0, 1⟩, 1)]⟩ }

/-! ## Lemmas on Go maps -/

section GoMapLemmas

variable {K V : Type} [DecidableEq K]

theorem GoMap.get?_set_self (m : GoMap K V) (k : K) (v : V) :
    (m.set k v).get? k = some v := by
  induction m with
  | nil => simp [GoMap.set, GoMap.get?]
  | cons hd tl ih =>
    obtain ⟨k1, v1⟩ := hd
    by_cases h : k1 = k
    · simp [GoMap.set, GoMap.get?, h]
    · simp [GoMap.set, GoMap.get?, h, ih]

theorem GoMap.get?_set_ne (m : GoMap K V) (k k2 : K) (v : V) (h : k ≠ k2) :
    (m.set k v).get? k2 = m.get? k2 := by
  induction m with
  | nil => simp [GoMap.set, GoMap.get?, h]
  | cons hd tl ih =>
    obtain ⟨k1, v1⟩ := hd
    by_cases h1 : k1 = k
    · subst h1
      simp [GoMap.set, GoMap.get?, h]
    · by_cases h2 : k1 = k2
      · subst h2
        simp [GoMap.set, GoMap.get?, h1]
      · simp [GoMap.set, GoMap.get?, h1, h2, ih]

theorem GoMap.contains_set (m : GoMap K V) (k k2 : K) (v : V) :
    (m.set k v).contains k2 = true ↔ k = k2 ∨ m.contains k2 = true := by
  by_cases h : k = k2
  · subst h
    simp [GoMap.contains, GoMap.get?_set_self]
  · simp [GoMap.contains, GoMap.get?_set_ne m k k2 v h, h]

theorem GoMap.get?_delete (m : GoMap K V) (k k2 : K) :
    (m.delete k).get? k2 = if k = k2 then none else m.get? k2 := by
  induction m with
  | nil => simp [GoMap.delete, GoMap.get?]
  | cons hd tl ih =>
    obtain ⟨k1, v1⟩ := hd
    unfold GoMap.delete at ih ⊢
    by_cases h1 : k1 = k
    · subst h1
      by_cases h2 : k1 = k2
      · simp [List.filter, GoMap.get?, h2] at ih ⊢
        exact ih
      · simp [List.filter, GoMap.get?, h2] at ih ⊢
        exact ih
    · by_cases h2 : k1 = k2
      · subst h2
        have h3 : ¬ k = k1 := fun h => h1 h.symm
        simp [List.filter, GoMap.get?, h1, h3]
      · simp only [List.filter, h1, ne_eq, not_false_eq_true, decide_True, GoMap.get?, h2,
          if_false]
        exact ih

theorem GoMap.contains_foldl_delete (l : List K) (m : GoMap K V) (k : K) (hk : k ∈ l) :
    (l.foldl (fun acc x => acc.delete x) m).contains k = false := by
  have hkeep : ∀ (l : List K) (m : GoMap K V), m.contains k = false →
      (l.foldl (fun acc x => acc.delete x) m).contains k = false := by
    intro l
    induction l with
    | nil => intro m hm; exact hm
    | cons x xs ih =>
      intro m hm
      rw [List.foldl_cons]
      apply ih
      unfold GoMap.contains at hm ⊢
      rw [GoMap.get?_delete]
      split
      · rfl
      · exact hm
  induction l generalizing m with
  | nil => cases hk
  | cons x xs ih =>
    rw [List.foldl_cons]
    rcases List.mem_cons.mp hk with rfl | hk
    · apply hkeep
      unfold GoMap.contains
      rw [GoMap.get?_delete]
      simp
    · exact ih _ hk

theorem GoMap.get?_foldl_set_mem (l : List K) (m : GoMap K V) (k : K) (v : V) (hk : k ∈ l) :
    (l.foldl (fun acc x => acc.set x v) m).get? k = some v := by
  have hkeep : ∀ (l : List K) (m : GoMap K V), m.get? k = some v →
      (l.foldl (fun acc x => acc.set x v) m).get? k = some v := by
    intro l
    induction l with
    | nil => intro m hm; exact hm
    | cons x xs ih =>
      intro m hm
      rw [List.foldl_cons]
      apply ih
      by_cases hx : x = k
      · subst hx
        exact GoMap.get?_set_self m x v
      · rw [GoMap.get?_set_ne m x k v hx]
        exact hm
  induction l generalizing m with
  | nil => cases hk
  | cons x xs ih =>
    rw [List.foldl_cons]
    rcases List.mem_cons.mp hk with rfl | hk
    · exact hkeep _ _ (GoMap.get?_set_self m k v)
    · exact ih _ hk

theorem GoMap.get?_foldl_set_not_mem (l : List K) (m : GoMap K V) (k : K) (v : V)
    (hk : k ∉ l) : (l.foldl (fun acc x => acc.set x v) m).get? k = m.get? k := by
  induction l generalizing m with
  | nil => rfl
  | cons x xs ih =>
    rw [List.foldl_cons, ih _ (fun h => hk (List.mem_cons_of_mem _ h))]
    exact GoMap.get?_set_ne m x k v (fun h => hk (h ▸ List.mem_cons_self _ _))

theorem GoMap.get?_foldl_delete_not_mem (l : List K) (m : GoMap K V) (k : K) (hk : k ∉ l) :
    (l.foldl (fun acc x => acc.delete x) m).get? k = m.get? k := by
  induction l generalizing m with
  | nil => rfl
  | cons x xs ih =>
    rw [List.foldl_cons, ih _ (fun h => hk (List.mem_cons_of_mem _ h)), GoMap.get?_delete]
    have hx : ¬ x = k := fun h => hk (h ▸ List.mem_cons_self _ _)
    simp [hx]

theorem GoMap.get?_foldl_delete_mem (l : List K) (m : GoMap K V) (k : K) (hk : k ∈ l) :
    (l.foldl (fun acc x => acc.delete x) m).get? k = none := by
  have h := GoMap.contains_foldl_delete l m k hk
  unfold GoMap.contains at h
  cases hg : (l.foldl (fun acc x => acc.delete x) m).get? k with
  | none => rfl
  | some v => rw [hg] at h; cases h

end GoMapLemmas

/-! ## Construction of a game instance -/

section NewGameLemmas

variable {M Mv D : Type}

theorem NewGame.loop_none_iff (ops : Maze M Mv D) (hs : ops.BoundsStable)
    (players : List Player) (maze : M) (acc : GoMap UUID Player) :
    NewGame.loop ops maze acc players = none ↔
      ∃ p ∈ players, ops.InBound maze p.pos.row p.pos.col = false := by
  induction players generalizing maze acc with
  | nil => simp [NewGame.loop]
  | cons p rest ih =>
    by_cases hp : ops.InBound maze p.pos.row p.pos.col = true
    · simp only [NewGame.loop, hp, Bool.not_true, Bool.false_eq_true, if_false]
      rw [ih]
      constructor
      · rintro ⟨q, hq, hb⟩
        exact ⟨q, List.mem_cons_of_mem _ hq, by rw [← hs maze p.pos]; exact hb⟩
      · rintro ⟨q, hq, hb⟩
        rcases List.mem_cons.mp hq with rfl | hq
        · rw [hp] at hb; cases hb
        · exact ⟨q, hq, by rw [hs maze p.pos]; exact hb⟩
    · have hp2 : ops.InBound maze p.pos.row p.pos.col = false := by
        simpa using hp
      simp only [NewGame.loop, hp2, Bool.not_false, if_true, true_iff]
      exact ⟨p, List.mem_cons_self _ _, hp2⟩

theorem NewGame.loop_keys (ops : Maze M Mv D) (players : List Player) (maze maze1 : M)
    (acc playersMap : GoMap UUID Player)
    (h : NewGame.loop ops maze acc players = some (maze1, playersMap)) (id : UUID) :
    playersMap.contains id = true ↔
      acc.contains id = true ∨ ∃ p ∈ players, p.id = id := by
  induction players generalizing maze acc with
  | nil =>
    simp only [NewGame.loop, Option.some.injEq, Prod.mk.injEq] at h
    simp [h.2]
  | cons p rest ih =>
    by_cases hp : ops.InBound maze p.pos.row p.pos.col = true
    · simp only [NewGame.loop, hp, Bool.not_true, Bool.false_eq_true, if_false] at h
      rw [ih _ _ h, GoMap.contains_set]
      simp only [List.mem_cons, exists_eq_or_imp]
      tauto
    · have hp2 : ops.InBound maze p.pos.row p.pos.col = false := by
        simpa using hp
      simp [NewGame.loop, hp2] at h

end NewGameLemmas

theorem gridOps_boundsStable : gridOps.BoundsStable := by
  intro m pos row col
  rfl

section NewGameContract

variable {M Mv D : Type}

/-- C1: `NewGame` makes its four checks in the order the claim lists them and
the first one that fails gives the error: more than 4 players is
`ErrTooManyPlayers`; fewer than 2 is `ErrNotEnoughPlayers`; with a legal count,
a width or height below 3 is `ErrNotBigEnoughDimension`; with a legal count and
legal dimensions, a player whose starting cell is not `InBound` is
`ErrInvalidPlayerPosition`; when none of the four holds the call succeeds,
the new game has version 0 and its player map has exactly the ids of the
given players as keys. -/
theorem NewGame_contract (ops : Maze M Mv D) (hs : ops.BoundsStable) (maze : M)
    (players : List Player) (e : GameEncoder M D) :
    (players.length > 4 → NewGame ops maze players e = .error .ErrTooManyPlayers) ∧
    (players.length < 2 → NewGame ops maze players e = .error .ErrNotEnoughPlayers) ∧
    (2 ≤ players.length → players.length ≤ 4 →
      (ops.Width maze < 3 ∨ ops.Height maze < 3) →
      NewGame ops maze players e = .error .ErrNotBigEnoughDimension) ∧
    (2 ≤ players.length → players.length ≤ 4 →
      3 ≤ ops.Width maze → 3 ≤ ops.Height maze →
      (∃ p ∈ players, ops.InBound maze p.pos.row p.pos.col = false) →
      NewGame ops maze players e = .error .ErrInvalidPlayerPosition) ∧
    (2 ≤ players.length → players.length ≤ 4 →
      3 ≤ ops.Width maze → 3 ≤ ops.Height maze →
      (∀ p ∈ players, ops.InBound maze p.pos.row p.pos.col = true) →
      ∃ g, NewGame ops maze players e = .ok g ∧ g.version = 0 ∧
        ∀ id, g.players.contains id = true ↔ ∃ p ∈ players, p.id = id) := by
  refine ⟨?_, ?_, ?_, ?_, ?_⟩
  · intro h
    simp [NewGame, maxPlayers, h]
  · intro h
    have h4 : ¬ players.length > 4 := by omega
    simp [NewGame, maxPlayers, minPlayers, h, h4]
  · intro h2 h4 hd
    have h4n : ¬ players.length > 4 := by omega
    have h2n : ¬ players.length < 2 := by omega
    simp [NewGame, maxPlayers, minPlayers, minDimension, h4n, h2n, hd]
  · intro h2 h4 hw hh hex
    have h4n : ¬ players.length > 4 := by omega
    have h2n : ¬ players.length < 2 := by omega
    have hd : ¬ (ops.Width maze < 3 ∨ ops.Height maze < 3) := by omega
    have hl := (NewGame.loop_none_iff ops hs players maze []).mpr hex
    simp [NewGame, maxPlayers, minPlayers, minDimension, h4n, h2n, hd, hl]
  · intro h2 h4 hw hh hall
    have h4n : ¬ players.length > 4 := by omega
    have h2n : ¬ players.length < 2 := by omega
    have hd : ¬ (ops.Width maze < 3 ∨ ops.Height maze < 3) := by omega
    have hl : NewGame.loop ops maze [] players ≠ none := by
      rw [Ne, NewGame.loop_none_iff ops hs players maze []]
      rintro ⟨p, hp, hb⟩
      rw [hall p hp] at hb
      cases hb
    cases hloop : NewGame.loop ops maze [] players with
    | none => exact absurd hloop hl
    | some r =>
      obtain ⟨maze1, playersMap⟩ := r
      refine ⟨_, by simp only [NewGame, maxPlayers, minPlayers, minDimension, h4n, h2n, hd,
        hloop, if_false]; rfl, rfl, ?_⟩
      intro id
      have hk := NewGame.loop_keys ops players maze maze1 [] playersMap hloop id
      simpa [GoMap.contains, GoMap.get?] using hk

theorem NewGame_contract_witness :
    gridOps.BoundsStable ∧
    ∃ g, NewGame gridOps grid3 [playerA, playerB] byteCodec = .ok g ∧ g.version = 0 ∧
      ∀ id, g.players.contains id = true ↔ ∃ p ∈ [playerA, playerB], p.id = id :=
  ⟨gridOps_boundsStable,
    (NewGame_contract gridOps gridOps_boundsStable grid3 [playerA, playerB] byteCodec).2.2.2.2
      (by decide) (by decide) (by decide) (by decide) (by decide)⟩

end NewGameContract

/-! ## Moves -/

section MoveLemmas

variable {M Mv D : Type}

theorem broadcastState_game (ended : Bool) (g : Game M D) :
    (broadcastState ended g).game = g := by
  unfold broadcastState
  cases g.encoder.MarshalGameState (snapshot g) with
  | none => rfl
  | some payload =>
    cases ended <;> cases g.endChanClosed <;> cases g.stateChanClosed <;> rfl

theorem broadcastState_no_stopSignal (ended : Bool) (g : Game M D) :
    Event.stopSignal ∉ (broadcastState ended g).trace := by
  unfold broadcastState
  cases g.encoder.MarshalGameState (snapshot g) with
  | none => simp [Run.done]
  | some payload =>
    cases ended <;> cases g.endChanClosed <;> cases g.stateChanClosed <;> simp

/-- The fields a run leaves alone when it only operates on channels. -/
theorem Run.andThen_core (P : Game M D → Game M D → Prop)
    (htrans : ∀ a b c, P a b → P b c → P a c) (g : Game M D) (r : Run M D)
    (f : Game M D → Run M D) (hr : P g r.game) (hf : ∀ x, P x (f x).game) :
    P g (r.andThen f).game := by
  unfold Run.andThen
  cases r.fault with
  | some _ => exact hr
  | none => exact htrans _ _ _ hr (hf r.game)

theorem sendStop_core (g : Game M D) :
    (sendStop g).game.version = g.version ∧ (sendStop g).game.players = g.players ∧
      (sendStop g).game.maze = g.maze ∧ (sendStop g).game.encoder = g.encoder := by
  unfold sendStop
  split
  · exact ⟨rfl, rfl, rfl, rfl⟩
  · split <;> exact ⟨rfl, rfl, rfl, rfl⟩

theorem closeActionChan_core (g : Game M D) :
    (closeActionChan g).game.version = g.version ∧
      (closeActionChan g).game.players = g.players ∧
      (closeActionChan g).game.maze = g.maze ∧
      (closeActionChan g).game.encoder = g.encoder := by
  unfold closeActionChan
  split <;> exact ⟨rfl, rfl, rfl, rfl⟩

theorem closeStateChan_core (g : Game M D) :
    (closeStateChan g).game.version = g.version ∧
      (closeStateChan g).game.players = g.players ∧
      (closeStateChan g).game.maze = g.maze ∧
      (closeStateChan g).game.encoder = g.encoder := by
  unfold closeStateChan
  split <;> exact ⟨rfl, rfl, rfl, rfl⟩

theorem closeEndChan_core (g : Game M D) :
    (closeEndChan g).game.version = g.version ∧
      (closeEndChan g).game.players = g.players ∧
      (closeEndChan g).game.maze = g.maze ∧
      (closeEndChan g).game.encoder = g.encoder := by
  unfold closeEndChan
  split <;> exact ⟨rfl, rfl, rfl, rfl⟩

/-- Method `Stop` changes channel state only. -/
theorem Stop_core (g : Game M D) :
    (Stop g).game.version = g.version ∧ (Stop g).game.players = g.players ∧
      (Stop g).game.maze = g.maze ∧ (Stop g).game.encoder = g.encoder := by
  have htrans : ∀ a b c : Game M D,
      (b.version = a.version ∧ b.players = a.players ∧ b.maze = a.maze ∧
        b.encoder = a.encoder) →
      (c.version = b.version ∧ c.players = b.players ∧ c.maze = b.maze ∧
        c.encoder = b.encoder) →
      (c.version = a.version ∧ c.players = a.players ∧ c.maze = a.maze ∧
        c.encoder = a.encoder) := by
    intro a b c h1 h2
    exact ⟨h2.1.trans h1.1, h2.2.1.trans h1.2.1, h2.2.2.1.trans h1.2.2.1,
      h2.2.2.2.trans h1.2.2.2⟩
  unfold Stop
  apply Run.andThen_core (fun a b => b.version = a.version ∧ b.players = a.players ∧
    b.maze = a.maze ∧ b.encoder = a.encoder) htrans
  · apply Run.andThen_core (fun a b => b.version = a.version ∧ b.players = a.players ∧
      b.maze = a.maze ∧ b.encoder = a.encoder) htrans
    · apply Run.andThen_core (fun a b => b.version = a.version ∧ b.players = a.players ∧
        b.maze = a.maze ∧ b.encoder = a.encoder) htrans
      · exact sendStop_core g
      · exact closeActionChan_core
    · exact closeStateChan_core
  · intro x
    apply Run.andThen_core (fun a b => b.version = a.version ∧ b.players = a.players ∧
      b.maze = a.maze ∧ b.encoder = a.encoder) htrans
    · rw [broadcastState_game]
      exact ⟨rfl, rfl, rfl, rfl⟩
    · exact closeEndChan_core

/-- The trace of `Stop` on a running instance whose final snapshot encodes. -/
theorem Stop_running (g : Game M D) (hr : g.Running) (payload : List Byte)
    (hm : g.encoder.MarshalGameState (snapshot g) = some payload) :
    (Stop g).trace = [.stopSignal, .closeActionChan, .closeStateChan, .endSnapshot payload,
      .closeEndChan] ∧ (Stop g).fault = none := by
  obtain ⟨h1, h2, h3, h4⟩ := hr
  have hm2 : g.encoder.MarshalGameState
      { version := g.version, maze := g.maze, players := g.players.map Prod.snd } =
      some payload := hm
  simp [Stop, Run.andThen, sendStop, closeActionChan, closeStateChan, closeEndChan,
    broadcastState, snapshot, h1, h2, h3, h4, hm2]

/-- The state and result of `Stop` on a running instance: the call returns,
the signal is left in the stop channel and the three other channels are closed. -/
theorem Stop_running_state (g : Game M D) (hr : g.Running) :
    (Stop g).fault = none ∧ (Stop g).game.stop = ⟨1, false⟩ ∧
      (Stop g).game.actionChanClosed = true := by
  obtain ⟨h1, h2, h3, h4⟩ := hr
  cases hm : g.encoder.MarshalGameState
      { version := g.version, maze := g.maze, players := g.players.map Prod.snd } with
  | none =>
    simp [Stop, Run.andThen, sendStop, closeActionChan, closeStateChan, closeEndChan,
      broadcastState, snapshot, Run.done, h1, h2, h3, h4, hm]
  | some payload =>
    simp [Stop, Run.andThen, sendStop, closeActionChan, closeStateChan, closeEndChan,
      broadcastState, snapshot, Run.done, h1, h2, h3, h4, hm]

theorem Stop_on_closed_stop (g : Game M D) (h : g.stop.closed = true) :
    (Stop g).fault = some .panic := by
  simp [Stop, Run.andThen, sendStop, h]

theorem Stop_on_full_stop (g : Game M D) (h : g.stop = ⟨1, false⟩) :
    (Stop g).fault = some .blocked := by
  simp [Stop, Run.andThen, sendStop, h]

/-- A second `Stop` on any instance that was running does not return: it
panics once the loop of `Start` has closed the stop channel, and blocks on the
full stop channel before that. -/
theorem Stop_twice (g : Game M D) (hr : g.Running) :
    (Stop g).fault = none ∧
    (Stop (Start.stopCase (Stop g).game)).fault = some .panic ∧
    (Stop (Stop g).game).fault = some .blocked := by
  obtain ⟨hf, hs, _⟩ := Stop_running_state g hr
  exact ⟨hf, Stop_on_closed_stop _ rfl, Stop_on_full_stop _ hs⟩

theorem wrapInt64_succ (v : Int) (hlo : -2 ^ 63 ≤ v) (hhi : v < 2 ^ 63 - 1) :
    wrapInt64 (v + 1) = v + 1 := by
  unfold wrapInt64
  have h : (v + 1 + 2 ^ 63) % 2 ^ 64 = v + 1 + 2 ^ 63 := by
    apply Int.emod_eq_of_lt
    · norm_num at hlo ⊢
      omega
    · norm_num at hhi ⊢
      omega
  rw [h]
  ring

/-- An accepted move runs `Stop` or `broadcastState(false)` on the updated state. -/
theorem handleIncomingMove_accepted (ops : Maze M Mv D) (g : Game M D) (a : Action D)
    (p : Player) (mv : Mv) (hp : g.players.get? a.id = some p)
    (hrow : p.pos.row = a.retriveFrom.row) (hcol : p.pos.col = a.retriveFrom.col)
    (hmv : ops.NewValidMove g.maze p.pos a.direction = some mv) :
    handleIncomingMove ops g a =
      if ops.GetTotalReward (handleIncomingMove.apply ops g a p mv).maze = 0 then
        Stop (handleIncomingMove.apply ops g a p mv)
      else broadcastState false (handleIncomingMove.apply ops g a p mv) := by
  simp [handleIncomingMove, hp, hrow, hcol, hmv]

theorem handleIncomingMove_accepted_core (ops : Maze M Mv D) (g : Game M D) (a : Action D)
    (p : Player) (mv : Mv) (hp : g.players.get? a.id = some p)
    (hrow : p.pos.row = a.retriveFrom.row) (hcol : p.pos.col = a.retriveFrom.col)
    (hmv : ops.NewValidMove g.maze p.pos a.direction = some mv) :
    (handleIncomingMove ops g a).game.version =
        (handleIncomingMove.apply ops g a p mv).version ∧
      (handleIncomingMove ops g a).game.players =
        (handleIncomingMove.apply ops g a p mv).players ∧
      (handleIncomingMove ops g a).game.maze =
        (handleIncomingMove.apply ops g a p mv).maze := by
  rw [handleIncomingMove_accepted ops g a p mv hp hrow hcol hmv]
  split
  · have h := Stop_core (handleIncomingMove.apply ops g a p mv)
    exact ⟨h.1, h.2.1, h.2.2.1⟩
  · rw [broadcastState_game]
    exact ⟨rfl, rfl, rfl⟩

theorem handleIncomingMove_unknown (ops : Maze M Mv D) (g : Game M D) (a : Action D)
    (hp : g.players.get? a.id = none) : handleIncomingMove ops g a = Run.done g := by
  simp [handleIncomingMove, hp]

theorem handleIncomingMove_stale (ops : Maze M Mv D) (g : Game M D) (a : Action D)
    (p : Player) (hp : g.players.get? a.id = some p)
    (hst : p.pos.row ≠ a.retriveFrom.row ∨ p.pos.col ≠ a.retriveFrom.col) :
    handleIncomingMove ops g a = Run.done g := by
  simp only [handleIncomingMove, hp]
  rw [if_pos hst]

theorem handleIncomingMove_illegal (ops : Maze M Mv D) (g : Game M D) (a : Action D)
    (p : Player) (hp : g.players.get? a.id = some p)
    (hmv : ops.NewValidMove g.maze p.pos a.direction = none) :
    handleIncomingMove ops g a = Run.done g := by
  simp only [handleIncomingMove, hp, hmv]
  split <;> rfl

/-- The trace of `Stop` on a running instance, whether or not the final
snapshot encodes. -/
theorem Stop_running_trace (g : Game M D) (hr : g.Running) :
    (Stop g).trace =
        [.stopSignal, .closeActionChan, .closeStateChan] ++
          (match g.encoder.MarshalGameState (snapshot g) with
            | some payload => [.endSnapshot payload]
            | none => []) ++ [.closeEndChan] ∧
      (Stop g).fault = none := by
  obtain ⟨h1, h2, h3, h4⟩ := hr
  cases hm : g.encoder.MarshalGameState (snapshot g) with
  | none =>
    have hm2 : g.encoder.MarshalGameState
        { version := g.version, maze := g.maze, players := g.players.map Prod.snd } =
        none := hm
    simp [Stop, Run.andThen, sendStop, closeActionChan, closeStateChan, closeEndChan,
      broadcastState, snapshot, Run.done, h1, h2, h3, h4, hm2]
  | some payload =>
    have hm2 : g.encoder.MarshalGameState
        { version := g.version, maze := g.maze, players := g.players.map Prod.snd } =
        some payload := hm
    simp [Stop, Run.andThen, sendStop, closeActionChan, closeStateChan, closeEndChan,
      broadcastState, snapshot, Run.done, h1, h2, h3, h4, hm2]

/-- A non-terminal broadcast on an open state channel: one snapshot when the
state encodes, nothing when it does not. -/
theorem broadcastState_open_trace (g : Game M D) (hopen : g.stateChanClosed = false) :
    (broadcastState false g).trace =
        (match g.encoder.MarshalGameState (snapshot g) with
          | some payload => [.stateSnapshot payload]
          | none => []) ∧
      (broadcastState false g).fault = none := by
  cases hm : g.encoder.MarshalGameState (snapshot g) with
  | none => simp [broadcastState, hm, Run.done]
  | some payload => simp [broadcastState, hm, hopen]

end MoveLemmas

section MoveClaims

variable {M Mv D : Type}

/-- C2: on a state whose version is an `int64` below the maximum,
`handleIncomingMove` raises the version by exactly 1 when the move is accepted
(the actor is in the player map, the claimed origin has the row and column of
the actor's position, the maze returns a valid move), and leaves the version as
it is when the actor is unknown, when the origin is stale, and when the
direction is illegal. -/
theorem handleIncomingMove_version (ops : Maze M Mv D) (g : Game M D) (a : Action D)
    (hlo : -2 ^ 63 ≤ g.version) (hhi : g.version < 2 ^ 63 - 1) :
    (∀ p mv, g.players.get? a.id = some p →
      p.pos.row = a.retriveFrom.row → p.pos.col = a.retriveFrom.col →
      ops.NewValidMove g.maze p.pos a.direction = some mv →
      (handleIncomingMove ops g a).game.version = g.version + 1) ∧
    (g.players.get? a.id = none →
      (handleIncomingMove ops g a).game.version = g.version) ∧
    (∀ p, g.players.get? a.id = some p →
      (p.pos.row ≠ a.retriveFrom.row ∨ p.pos.col ≠ a.retriveFrom.col) →
      (handleIncomingMove ops g a).game.version = g.version) ∧
    (∀ p, g.players.get? a.id = some p →
      ops.NewValidMove g.maze p.pos a.direction = none →
      (handleIncomingMove ops g a).game.version = g.version) := by
  refine ⟨?_, ?_, ?_, ?_⟩
  · intro p mv hp hrow hcol hmv
    rw [(handleIncomingMove_accepted_core ops g a p mv hp hrow hcol hmv).1]
    exact wrapInt64_succ g.version hlo hhi
  · intro hp
    rw [handleIncomingMove_unknown ops g a hp]
    rfl
  · intro p hp hst
    rw [handleIncomingMove_stale ops g a p hp hst]
    rfl
  · intro p hp hmv
    rw [handleIncomingMove_illegal ops g a p hp hmv]
    rfl

theorem handleIncomingMove_version_witness :
    (-2 ^ 63 ≤ game3.version ∧ game3.version < 2 ^ 63 - 1) ∧
      (handleIncomingMove gridOps game3 moveRightA).game.version = game3.version + 1 :=
  ⟨by simp [game3],
    (handleIncomingMove_version gridOps game3 moveRightA (by simp [game3])
      (by simp [game3])).1 playerA ⟨0, 1⟩ rfl rfl rfl rfl⟩

/-- C3: when a move of participant A with claimed origin P is accepted and the
destination differs from P in row or column, A's position afterwards is the
destination, and the same action applied again is rejected: the second call
returns the state it was given, so version, A's position and A's reward are
those before the replay, and it performs no channel operation. -/
theorem handleIncomingMove_replay (ops : Maze M Mv D) (g : Game M D) (a : Action D)
    (p : Player) (mv : Mv) (hp : g.players.get? a.id = some p)
    (hrow : p.pos.row = a.retriveFrom.row) (hcol : p.pos.col = a.retriveFrom.col)
    (hmv : ops.NewValidMove g.maze p.pos a.direction = some mv)
    (hdiff : (ops.To mv).row ≠ a.retriveFrom.row ∨ (ops.To mv).col ≠ a.retriveFrom.col) :
    (∃ p1, (handleIncomingMove ops g a).game.players.get? a.id = some p1 ∧
      p1.pos = ops.To mv) ∧
    handleIncomingMove ops (handleIncomingMove ops g a).game a =
      Run.done (handleIncomingMove ops g a).game ∧
    (handleIncomingMove ops (handleIncomingMove ops g a).game a).game.version =
      (handleIncomingMove ops g a).game.version ∧
    (handleIncomingMove ops (handleIncomingMove ops g a).game a).game.players.get? a.id =
      (handleIncomingMove ops g a).game.players.get? a.id := by
  have hcore := handleIncomingMove_accepted_core ops g a p mv hp hrow hcol hmv
  have hget : (handleIncomingMove ops g a).game.players.get? a.id =
      some { p with reward := wrapInt32 (p.reward + (ops.Move g.maze mv).1),
                    pos := ops.To mv } := by
    rw [hcore.2.1]
    exact GoMap.get?_set_self _ _ _
  have hrej := handleIncomingMove_stale ops (handleIncomingMove ops g a).game a _ hget hdiff
  refine ⟨⟨_, hget, rfl⟩, hrej, ?_, ?_⟩
  · rw [hrej]
    rfl
  · rw [hrej]
    rfl

theorem handleIncomingMove_replay_witness :
    ((gridOps.To (⟨0, 1⟩ : CellPosition)).row ≠ moveRightA.retriveFrom.row ∨
      (gridOps.To (⟨0, 1⟩ : CellPosition)).col ≠ moveRightA.retriveFrom.col) ∧
    handleIncomingMove gridOps (handleIncomingMove gridOps game3 moveRightA).game moveRightA =
      Run.done (handleIncomingMove gridOps game3 moveRightA).game :=
  ⟨Or.inr (by decide),
    (handleIncomingMove_replay gridOps game3 moveRightA playerA ⟨0, 1⟩ rfl rfl rfl rfl
      (Or.inr (by decide))).2.1⟩

/-- C4 (as stated, refuted): on the running game `game3Mute`, whose codec fails
to encode, player A's move to the right is accepted (the version becomes 1)
and the total reward left after it is not 0, yet the call performs no channel
operation: no snapshot reaches the state channel. -/
theorem handleIncomingMove_encode_error_no_snapshot :
    game3Mute.Running ∧
    game3Mute.players.get? moveRightA.id = some playerA ∧
    gridOps.NewValidMove game3Mute.maze playerA.pos moveRightA.direction =
      some (⟨0, 1⟩ : CellPosition) ∧
    gridOps.GetTotalReward (gridOps.Move game3Mute.maze (⟨0, 1⟩ : CellPosition)).2 ≠ 0 ∧
    (handleIncomingMove gridOps game3Mute moveRightA).game.version = 1 ∧
    (handleIncomingMove gridOps game3Mute moveRightA).trace = [] ∧
    (handleIncomingMove gridOps game3Mute moveRightA).fault = none :=
  ⟨⟨rfl, rfl, rfl, rfl⟩, rfl, rfl, by decide, rfl, rfl, rfl⟩

/-- C4 (amended): let an accepted move of player `p` along `mv` lead from `g`
to the state `g1` whose maze is the one returned by the maze's `Move`, whose
entry for the actor has the reward added and the destination as position, and
whose version is one more. If the total reward of the maze returned by `Move`
is 0 the call is `Stop` on `g1`, otherwise it is `broadcastState(false)` on
`g1`. On a running instance the stop signal is sent exactly when that total is
0; then the trace is the stop signal, the two closes, the terminal snapshot on
the end channel when `g1` encodes (none when it does not) and the close of
the end channel, with no snapshot on the state channel; otherwise the trace
is one non-terminal snapshot on the state channel when `g1` encodes and is
empty when it does not. A rejected move returns at once with no channel
operation. -/
theorem handleIncomingMove_outcome (ops : Maze M Mv D) (g : Game M D) (a : Action D) :
    (∀ (p : Player) (mv : Mv) (p1 : Player) (g1 : Game M D),
      g.players.get? a.id = some p →
      p.pos.row = a.retriveFrom.row → p.pos.col = a.retriveFrom.col →
      ops.NewValidMove g.maze p.pos a.direction = some mv →
      p1 = { p with reward := wrapInt32 (p.reward + (ops.Move g.maze mv).1),
                    pos := ops.To mv } →
      g1 = { g with maze := (ops.Move g.maze mv).2,
                    players := g.players.set a.id p1,
                    version := wrapInt64 (g.version + 1) } →
      (ops.GetTotalReward (ops.Move g.maze mv).2 = 0 →
        handleIncomingMove ops g a = Stop g1) ∧
      (ops.GetTotalReward (ops.Move g.maze mv).2 ≠ 0 →
        handleIncomingMove ops g a = broadcastState false g1) ∧
      (g.Running →
        (Event.stopSignal ∈ (handleIncomingMove ops g a).trace ↔
          ops.GetTotalReward (ops.Move g.maze mv).2 = 0) ∧
        (ops.GetTotalReward (ops.Move g.maze mv).2 = 0 →
          (handleIncomingMove ops g a).trace =
            [.stopSignal, .closeActionChan, .closeStateChan] ++
              (match g.encoder.MarshalGameState
                  ⟨wrapInt64 (g.version + 1), (ops.Move g.maze mv).2,
                    (g.players.set a.id p1).map Prod.snd⟩ with
                | some payload => [.endSnapshot payload]
                | none => []) ++ [.closeEndChan] ∧
          (handleIncomingMove ops g a).fault = none) ∧
        (ops.GetTotalReward (ops.Move g.maze mv).2 ≠ 0 →
          (handleIncomingMove ops g a).trace =
            (match g.encoder.MarshalGameState
                ⟨wrapInt64 (g.version + 1), (ops.Move g.maze mv).2,
                  (g.players.set a.id p1).map Prod.snd⟩ with
              | some payload => [.stateSnapshot payload]
              | none => []) ∧
          (handleIncomingMove ops g a).fault = none))) ∧
    ((g.players.get? a.id = none ∨
        ∃ p, g.players.get? a.id = some p ∧
          ((p.pos.row ≠ a.retriveFrom.row ∨ p.pos.col ≠ a.retriveFrom.col) ∨
            ops.NewValidMove g.maze p.pos a.direction = none)) →
      handleIncomingMove ops g a = Run.done g) := by
  constructor
  · intro p mv p1 g1 hp hrow hcol hmv hp1 hg1
    subst hp1
    subst hg1
    have heq := handleIncomingMove_accepted ops g a p mv hp hrow hcol hmv
    have h0iff : ops.GetTotalReward (handleIncomingMove.apply ops g a p mv).maze =
        ops.GetTotalReward (ops.Move g.maze mv).2 := rfl
    rw [h0iff] at heq
    refine ⟨?_, ?_, ?_⟩
    · intro h0
      rw [heq, if_pos h0]
      rfl
    · intro h0
      rw [heq, if_neg h0]
      rfl
    · intro hr
      have hr1 : (handleIncomingMove.apply ops g a p mv).Running := hr
      have hstop := Stop_running_trace (handleIncomingMove.apply ops g a p mv) hr1
      have hbc := broadcastState_open_trace (handleIncomingMove.apply ops g a p mv) hr1.2.1
      by_cases h0 : ops.GetTotalReward (ops.Move g.maze mv).2 = 0
      · rw [if_pos h0] at heq
        rw [heq]
        refine ⟨?_, fun _ => hstop, fun hne => absurd h0 hne⟩
        rw [hstop.1]
        simp [h0]
      · rw [if_neg h0] at heq
        rw [heq]
        refine ⟨?_, fun h => absurd h h0, fun _ => hbc⟩
        constructor
        · intro hin
          exact absurd hin (broadcastState_no_stopSignal false _)
        · intro h
          exact absurd h h0
  · rintro (hp | ⟨p, hp, hst | hmv⟩)
    · exact handleIncomingMove_unknown ops g a hp
    · exact handleIncomingMove_stale ops g a p hp hst
    · exact handleIncomingMove_illegal ops g a p hp hmv

theorem handleIncomingMove_outcome_witness :
    (game3.Running ∧
      (handleIncomingMove gridOps game3 moveRightA).trace = [.stateSnapshot [1]] ∧
      (handleIncomingMove gridOps game3 moveRightA).fault = none) ∧
    (gameLast.Running ∧
      gridOps.GetTotalReward (gridOps.Move gameLast.maze (⟨0, 1⟩ : CellPosition)).2 = 0 ∧
      (handleIncomingMove gridOps gameLast moveRightA).trace =
        [.stopSignal, .closeActionChan, .closeStateChan, .endSnapshot [1], .closeEndChan] ∧
      (handleIncomingMove gridOps gameLast moveRightA).fault = none) :=
  ⟨⟨⟨rfl, rfl, rfl, rfl⟩,
      (((handleIncomingMove_outcome gridOps game3 moveRightA).1 playerA ⟨0, 1⟩ _ _
        rfl rfl rfl rfl rfl rfl).2.2 ⟨rfl, rfl, rfl, rfl⟩).2.2 (by decide)⟩,
    ⟨⟨rfl, rfl, rfl, rfl⟩, by decide,
      (((handleIncomingMove_outcome gridOps gameLast moveRightA).1 playerA ⟨0, 1⟩ _ _
        rfl rfl rfl rfl rfl rfl).2.2 ⟨rfl, rfl, rfl, rfl⟩).2.1 (by decide)⟩⟩

/-- C5 (the code at the failing input): on the running instance `game3` a
first `Stop` runs the termination sequence and returns; a second `Stop` does
not return. Once the loop of `Start` has taken the signal and closed the stop
channel the second call panics on its send; before that it blocks on the full
buffer of the stop channel. -/
theorem Stop_second_call_faults :
    game3.Running ∧
    (Stop game3).trace =
      [.stopSignal, .closeActionChan, .closeStateChan, .endSnapshot [0], .closeEndChan] ∧
    (Stop game3).fault = none ∧
    (Stop (Start.stopCase (Stop game3).game)).fault = some .panic ∧
    (Stop (Stop game3).game).fault = some .blocked :=
  ⟨⟨rfl, rfl, rfl, rfl⟩, rfl, rfl, rfl, rfl⟩

/-- C10: a record of fewer than 2 bytes is discarded by the action branch of
the dispatcher whatever its type byte: the handler is not called (the result
does not depend on it), the state is returned as it was and no channel
operation is performed. The record that `writePlayerRequest` builds from a
type byte and an empty payload is that single byte, so it is discarded too, in
particular for the state-request type byte. -/
theorem Start_actionCase_short (ops : Maze M Mv D) (g : Game M D) :
    (∀ action : List Byte, action.length < 2 →
      (∀ handler, Start.actionCaseWith handler g action = Run.done g) ∧
      Start.actionCase ops g action = Run.done g) ∧
    (∀ (G : Type) (mgr : GameSessionManager G) (pID : UUID) (t : Byte) (gs : G)
      (record : List Byte), writePlayerRequest mgr pID t [] = .sent gs record →
      record = [t] ∧ Start.actionCase ops g record = Run.done g) ∧
    Start.actionCase ops g [Fin.ofNat stateRequestActionType] = Run.done g := by
  have hshort : ∀ action : List Byte, action.length < 2 →
      ∀ handler : Game M D → Byte → List Byte → Run M D,
        Start.actionCaseWith handler g action = Run.done g := by
    intro action hlen handler
    simp [Start.actionCaseWith, hlen]
  refine ⟨fun action hlen => ⟨hshort action hlen, hshort action hlen _⟩, ?_,
    hshort _ (by simp) _⟩
  intro G mgr pID t gs record h
  have hrec : record = [t] := by
    unfold writePlayerRequest at h
    split at h
    · cases h
    · split at h
      · cases h
      · injection h with _ h2
        simpa using h2.symm
  exact ⟨hrec, by rw [hrec]; exact hshort _ (by simp) _⟩

theorem Start_actionCase_short_witness :
    writePlayerRequest registry1 (UUID.ofByte 1) 6 [] = .sent game3 [6] ∧
      Start.actionCase gridOps game3 [6] = Run.done game3 :=
  ⟨rfl,
    ((Start_actionCase_short gridOps game3).2.1 _ registry1 (UUID.ofByte 1) 6 game3 [6]
      rfl).2⟩

end MoveClaims

/-! ## The session registry -/

section RegistryLemmas

variable {G : Type}

theorem saveSession_sessions (g g1 : GameSessionManager G) (draws players : List UUID) (gs : G)
    (sessionID : UUID) (h : saveSession g draws players gs = some (g1, sessionID)) :
    g1.sessions = g.sessions.set sessionID ⟨some gs, players⟩ := by
  unfold saveSession at h
  split at h
  · cases h
  · simp only [Option.some.injEq, Prod.mk.injEq] at h
    obtain ⟨h1, h2⟩ := h
    subst h2
    rw [← h1]

theorem PlayerInSession_save (g g1 : GameSessionManager G) (draws players : List UUID) (gs : G)
    (sessionID : UUID) (h : saveSession g draws players gs = some (g1, sessionID))
    (p s : UUID) (hin : PlayerInSession g1 p s) :
    (s = sessionID ∧ p ∈ players) ∨ (s ≠ sessionID ∧ PlayerInSession g p s) := by
  obtain ⟨e, he, hp⟩ := hin
  rw [saveSession_sessions g g1 draws players gs sessionID h] at he
  by_cases hs : sessionID = s
  · subst hs
    rw [GoMap.get?_set_self] at he
    cases he
    exact Or.inl ⟨rfl, hp⟩
  · rw [GoMap.get?_set_ne _ _ _ _ hs] at he
    exact Or.inr ⟨fun h => hs h.symm, e, he, hp⟩

theorem PlayerInSession_clean (g : GameSessionManager G) (ID p s : UUID)
    (hin : PlayerInSession (clean g ID) p s) : PlayerInSession g p s := by
  obtain ⟨e, he, hp⟩ := hin
  simp only [clean, GoMap.get?_delete] at he
  split at he
  · cases he
  · exact ⟨e, he, hp⟩

theorem registry1_reachableUnbound : ReachableUnbound registry1 :=
  ReachableUnbound.save NewGameSessionManager registry1 [UUID.ofByte 101]
    [UUID.ofByte 1, UUID.ofByte 2] game3 (UUID.ofByte 101) ReachableUnbound.empty
    (by
      rintro p _ s ⟨e, he, _⟩
      cases he)
    rfl

end RegistryLemmas

section RegistryClaims

variable {G : Type}

/-- C7 (the code at the failing input): registering players 1 and 2 twice,
under session ids 101 and 102, is a sequence of two registrations that return,
and `NewSession` itself accepts the second one although both players are in
session 101 of the table. In the state reached player 1 is in the participant
list of both sessions. When the older session 101 is then cleaned, session
102 stays in the table with player 1 in its list, but the index entry of
player 1 is gone: `SessionInfo` fails for player 1 and `writePlayerRequest`
drops the requests of player 1. -/
theorem registry_player_in_two_sessions :
    Reachable registry2 ∧
    PlayerInSession registry2 (UUID.ofByte 1) (UUID.ofByte 101) ∧
    PlayerInSession registry2 (UUID.ofByte 1) (UUID.ofByte 102) ∧
    UUID.ofByte 101 ≠ UUID.ofByte 102 ∧
    (NewSession gridConfig registry1 [UUID.ofByte 102] [UUID.ofByte 1, UUID.ofByte 2]).2 =
      .started (UUID.ofByte 102) ∧
    PlayerInSession
      (NewSession gridConfig registry1 [UUID.ofByte 102] [UUID.ofByte 1, UUID.ofByte 2]).1
      (UUID.ofByte 1) (UUID.ofByte 101) ∧
    PlayerInSession
      (NewSession gridConfig registry1 [UUID.ofByte 102] [UUID.ofByte 1, UUID.ofByte 2]).1
      (UUID.ofByte 1) (UUID.ofByte 102) ∧
    PlayerInSession (clean registry2 (UUID.ofByte 101)) (UUID.ofByte 1) (UUID.ofByte 102) ∧
    SessionInfo (clean registry2 (UUID.ofByte 101)) ⟨[], "addr"⟩ (UUID.ofByte 1) =
      .error .noSession ∧
    writePlayerRequest (clean registry2 (UUID.ofByte 101)) (UUID.ofByte 1) 3 [] = .dropped :=
  ⟨Reachable.save registry1 registry2 [UUID.ofByte 102] [UUID.ofByte 1, UUID.ofByte 2] game3
      (UUID.ofByte 102)
      (Reachable.save NewGameSessionManager registry1 [UUID.ofByte 101]
        [UUID.ofByte 1, UUID.ofByte 2] game3 (UUID.ofByte 101) Reachable.empty rfl)
      rfl,
    ⟨_, rfl, List.mem_cons_self _ _⟩, ⟨_, rfl, List.mem_cons_self _ _⟩, by decide, rfl,
    ⟨_, rfl, List.mem_cons_self _ _⟩, ⟨_, rfl, List.mem_cons_self _ _⟩,
    ⟨_, rfl, List.mem_cons_self _ _⟩, rfl, rfl⟩

/-- The registrations that break the single-session property are exactly those
of a player already in a session: in every registry state reached from the
empty registry by registrations whose player ids are, at the time of the call,
in no session of the table, and by clean-ups, each player id is in the
participant list of at most one session of the table. -/
theorem registry_single_session (g : GameSessionManager G) (hreach : ReachableUnbound g) :
    ∀ p s1 s2, PlayerInSession g p s1 → PlayerInSession g p s2 → s1 = s2 := by
  induction hreach with
  | empty =>
    rintro p s1 s2 ⟨e, he, _⟩
    cases he
  | save g g1 draws players gs sessionID _ hfree hsave ih =>
    intro p s1 s2 h1 h2
    rcases PlayerInSession_save g g1 draws players gs sessionID hsave p s1 h1 with
      ⟨hs1, hp1⟩ | ⟨_, hold1⟩
    · rcases PlayerInSession_save g g1 draws players gs sessionID hsave p s2 h2 with
        ⟨hs2, _⟩ | ⟨_, hold2⟩
      · rw [hs1, hs2]
      · exact absurd hold2 (hfree p hp1 s2)
    · rcases PlayerInSession_save g g1 draws players gs sessionID hsave p s2 h2 with
        ⟨_, hp2⟩ | ⟨_, hold2⟩
      · exact absurd hold1 (hfree p hp2 s1)
      · exact ih p s1 s2 hold1 hold2
  | clean g ID _ ih =>
    intro p s1 s2 h1 h2
    exact ih p s1 s2 (PlayerInSession_clean g ID p s1 h1) (PlayerInSession_clean g ID p s2 h2)

theorem registry_single_session_witness :
    ReachableUnbound registry1 ∧
      ∀ p s1 s2, PlayerInSession registry1 p s1 → PlayerInSession registry1 p s2 → s1 = s2 :=
  ⟨registry1_reachableUnbound, registry_single_session registry1 registry1_reachableUnbound⟩

/-- C8 (as stated, refuted): after `clean` has run for session 101 of
`registry1`, `Authenticate` on the 16-byte token of its participant 1 fails
with the error "player does not have game session", which is not the
"invalid token" error. -/
theorem Authenticate_after_clean_not_invalidToken :
    (UUID.ofByte 1).bytes.length = 16 ∧
    Authenticate (clean registry1 (UUID.ofByte 101)) (UUID.ofByte 1).bytes =
      .error .playerHasNoSession ∧
    Authenticate (clean registry1 (UUID.ofByte 101)) (UUID.ofByte 1).bytes ≠
      .error .invalidToken := by
  refine ⟨rfl, rfl, ?_⟩
  intro h
  have h2 : (Except.error ManagerError.playerHasNoSession : Except ManagerError UUID) =
      .error .invalidToken := h
  injection h2 with h3
  cases h3

/-- C8 (amended): after `clean` has run for a session id of the table, for
every participant p of that session `SessionInfo(p)` fails with the
"No Session" error and `Authenticate` on p's 16-byte token fails with the
"player does not have game session" error; in every registry state
`Authenticate` fails with the "invalid token" error exactly on the tokens that
do not decode, those whose length is not 16 bytes. -/
theorem clean_unbinds_participants (g : GameSessionManager G) (socket : Socket) (ID : UUID)
    (e : Session G) (he : g.sessions.get? ID = some e) :
    (∀ p ∈ e.players,
      SessionInfo (clean g ID) socket p = .error .noSession ∧
      Authenticate (clean g ID) p.bytes = .error .playerHasNoSession) ∧
    (∀ (g2 : GameSessionManager G) (s : List Byte),
      Authenticate g2 s = .error .invalidToken ↔ s.length ≠ 16) := by
  constructor
  · intro p hp
    have hc : (clean g ID).playerToSession.contains p = false := by
      simp only [clean, GameSessionManager.sessionAt, he, Option.getD_some]
      exact GoMap.contains_foldl_delete e.players g.playerToSession p hp
    have hfb : UUID.FromBytes p.bytes = some p := by
      simp [UUID.FromBytes, p.size]
    constructor
    · simp [SessionInfo, hc]
    · simp [Authenticate, hfb, hc]
  · intro g2 s
    unfold Authenticate UUID.FromBytes
    by_cases h : s.length = 16
    · simp only [h, dite_true, ne_eq, not_true_eq_false, iff_false]
      split
      · intro hx
        injection hx with hx2
        cases hx2
      · intro hx
        cases hx
    · simp [h]

theorem clean_unbinds_participants_witness :
    registry1.sessions.get? (UUID.ofByte 101) =
        some ⟨some game3, [UUID.ofByte 1, UUID.ofByte 2]⟩ ∧
      (SessionInfo (clean registry1 (UUID.ofByte 101)) ⟨[], "addr"⟩ (UUID.ofByte 2) =
        .error .noSession ∧
      Authenticate (clean registry1 (UUID.ofByte 101)) (UUID.ofByte 2).bytes =
        .error .playerHasNoSession) ∧
      (Authenticate registry1 [1, 2, 3] = .error .invalidToken ↔
        ([1, 2, 3] : List Byte).length ≠ 16) :=
  ⟨rfl,
    (clean_unbinds_participants registry1 ⟨[], "addr"⟩ (UUID.ofByte 101)
      ⟨some game3, [UUID.ofByte 1, UUID.ofByte 2]⟩ rfl).1 (UUID.ofByte 2)
      (List.mem_cons_of_mem _ (List.mem_cons_self _ _)),
    (clean_unbinds_participants registry1 ⟨[], "addr"⟩ (UUID.ofByte 101)
      ⟨some game3, [UUID.ofByte 1, UUID.ofByte 2]⟩ rfl).2 registry1 [1, 2, 3]⟩

/-- Unless the call ends with a started session, `NewSession` returns the
manager it was given. -/
theorem NewSession_not_started {M Mv D : Type} (c : Config M Mv D)
    (g : GameSessionManager (Game M D)) (draws playerIDs : List UUID)
    (h : ∀ sid, (NewSession c g draws playerIDs).2 ≠ .started sid) :
    (NewSession c g draws playerIDs).1 = g := by
  unfold NewSession at h ⊢
  split
  · rfl
  · cases hf : c.MazeFactory 20 defaultMazeSize with
    | none => rfl
    | some maze =>
      cases hpop : c.mazeOps.PopulateReward maze ⟨1, 5, 90⟩ with
      | none => simp [hpop]
      | some maze1 =>
        cases hgame : NewGame c.mazeOps maze1 (NewSession.players c.GameEndcoder playerIDs)
            c.GameEndcoder with
        | error err => simp [hpop, hgame]
        | ok gameServer =>
          cases hsave : saveSession g draws playerIDs gameServer with
          | none => simp [hpop, hgame, hsave]
          | some r =>
            obtain ⟨g1, sessionID⟩ := r
            exfalso
            apply h sessionID
            rw [if_neg (by assumption)]
            simp [hf, hpop, hgame, hsave]

/-- C9: a call of `NewSession` that creates no session returns the manager it
was given, session table and player index included. That is the case with
more than 4 ids, with fewer than 2 ids, when the maze factory fails, when
reward population fails and when `NewGame` fails; and whenever the call does
not end with a started session, the manager is the one it was given. -/
theorem NewSession_failure_no_effect {M Mv D : Type} (c : Config M Mv D)
    (g : GameSessionManager (Game M D)) (draws playerIDs : List UUID) :
    (playerIDs.length > 4 → NewSession c g draws playerIDs = (g, .tooManyPlayers)) ∧
    (playerIDs.length < 2 →
      (NewSession c g draws playerIDs).1 = g ∧
        ∀ sid, (NewSession c g draws playerIDs).2 ≠ .started sid) ∧
    (c.MazeFactory 20 defaultMazeSize = none →
      (NewSession c g draws playerIDs).1 = g ∧
        ∀ sid, (NewSession c g draws playerIDs).2 ≠ .started sid) ∧
    (∀ maze, c.MazeFactory 20 defaultMazeSize = some maze →
      c.mazeOps.PopulateReward maze ⟨1, 5, 90⟩ = none →
      (NewSession c g draws playerIDs).1 = g ∧
        ∀ sid, (NewSession c g draws playerIDs).2 ≠ .started sid) ∧
    (∀ maze maze1 err, c.MazeFactory 20 defaultMazeSize = some maze →
      c.mazeOps.PopulateReward maze ⟨1, 5, 90⟩ = some maze1 →
      NewGame c.mazeOps maze1 (NewSession.players c.GameEndcoder playerIDs) c.GameEndcoder =
        .error err →
      (NewSession c g draws playerIDs).1 = g ∧
        ∀ sid, (NewSession c g draws playerIDs).2 ≠ .started sid) ∧
    ((∀ sid, (NewSession c g draws playerIDs).2 ≠ .started sid) →
      (NewSession c g draws playerIDs).1 = g ∧
      (NewSession c g draws playerIDs).1.sessions = g.sessions ∧
      (NewSession c g draws playerIDs).1.playerToSession = g.playerToSession) := by
  have key : (∀ sid, (NewSession c g draws playerIDs).2 ≠ .started sid) →
      (NewSession c g draws playerIDs).1 = g ∧
        ∀ sid, (NewSession c g draws playerIDs).2 ≠ .started sid :=
    fun h => ⟨NewSession_not_started c g draws playerIDs h, h⟩
  refine ⟨?_, ?_, ?_, ?_, ?_, ?_⟩
  · intro h
    simp [NewSession, maxPlayers, h]
  · intro h
    apply key
    intro sid
    have hlen : (NewSession.players c.GameEndcoder playerIDs).length < 2 := by
      simpa [NewSession.players] using h
    have hng : ∀ maze1, NewGame c.mazeOps maze1 (NewSession.players c.GameEndcoder playerIDs)
        c.GameEndcoder = .error .ErrNotEnoughPlayers := by
      intro maze1
      have h4 : ¬ (NewSession.players c.GameEndcoder playerIDs).length > 4 := by omega
      simp [NewGame, maxPlayers, minPlayers, hlen, h4]
    unfold NewSession
    split
    · simp
    · cases hf : c.MazeFactory 20 defaultMazeSize with
      | none => simp
      | some maze =>
        cases hpop : c.mazeOps.PopulateReward maze ⟨1, 5, 90⟩ with
        | none => simp [hpop]
        | some maze1 => simp [hpop, hng maze1]
  · intro hf
    apply key
    intro sid
    unfold NewSession
    split
    · simp
    · simp [hf]
  · intro maze hf hpop
    apply key
    intro sid
    unfold NewSession
    split
    · simp
    · simp [hf, hpop]
  · intro maze maze1 err hf hpop hgame
    apply key
    intro sid
    unfold NewSession
    split
    · simp
    · simp [hf, hpop, hgame]
  · intro h
    have h1 := NewSession_not_started c g draws playerIDs h
    exact ⟨h1, by rw [h1], by rw [h1]⟩

theorem NewSession_failure_no_effect_witness :
    [UUID.ofByte 3].length < 2 ∧
      (NewSession gridConfig registry1 [UUID.ofByte 103] [UUID.ofByte 3]).1 = registry1 ∧
      ∀ sid, (NewSession gridConfig registry1 [UUID.ofByte 103] [UUID.ofByte 3]).2 ≠
        .started sid :=
  ⟨by decide,
    (NewSession_failure_no_effect gridConfig registry1 [UUID.ofByte 103]
      [UUID.ofByte 3]).2.1 (by decide)⟩

end RegistryClaims


/-! ## The player index -/

section IndexLemmas

variable {G : Type}

theorem saveSession.sessionID_fresh (sessions : GoMap UUID (Session G)) (draws : List UUID)
    (sid : UUID) (h : saveSession.sessionID sessions draws = some sid) :
    sessions.get? sid = none := by
  induction draws with
  | nil => cases h
  | cons d ds ih =>
    unfold saveSession.sessionID at h
    by_cases hc : sessions.contains d = true
    · rw [if_pos hc] at h
      exact ih h
    · rw [if_neg hc] at h
      cases h
      simpa [GoMap.contains] using hc

theorem saveSession_fresh (g g1 : GameSessionManager G) (draws players : List UUID) (gs : G)
    (sessionID : UUID) (h : saveSession g draws players gs = some (g1, sessionID)) :
    g.sessions.get? sessionID = none := by
  unfold saveSession at h
  split at h
  · cases h
  · rename_i sid hsid
    simp only [Option.some.injEq, Prod.mk.injEq] at h
    rw [← h.2]
    exact saveSession.sessionID_fresh g.sessions draws sid hsid

theorem saveSession_index (g g1 : GameSessionManager G) (draws players : List UUID) (gs : G)
    (sessionID : UUID) (h : saveSession g draws players gs = some (g1, sessionID)) :
    g1.playerToSession =
      players.foldl (fun m player => m.set player sessionID) g.playerToSession := by
  unfold saveSession at h
  split at h
  · cases h
  · simp only [Option.some.injEq, Prod.mk.injEq] at h
    obtain ⟨h1, h2⟩ := h
    subst h2
    rw [← h1]

/-- A registration that returns keeps the index sound. -/
theorem IndexSound_save (g g1 : GameSessionManager G) (draws players : List UUID) (gs : G)
    (sessionID : UUID) (h : saveSession g draws players gs = some (g1, sessionID))
    (hinv : IndexSound g) : IndexSound g1 := by
  intro p s hps
  rw [saveSession_index g g1 draws players gs sessionID h] at hps
  rw [saveSession_sessions g g1 draws players gs sessionID h]
  by_cases hp : p ∈ players
  · rw [GoMap.get?_foldl_set_mem players g.playerToSession p sessionID hp] at hps
    cases hps
    exact ⟨⟨some gs, players⟩, GoMap.get?_set_self _ _ _, hp, by simp⟩
  · rw [GoMap.get?_foldl_set_not_mem players g.playerToSession p sessionID hp] at hps
    obtain ⟨e, he, hpe, hgs⟩ := hinv p s hps
    have hne : sessionID ≠ s := by
      intro heq
      rw [← heq, saveSession_fresh g g1 draws players gs sessionID h] at he
      cases he
    exact ⟨e, by rw [GoMap.get?_set_ne _ _ _ _ hne]; exact he, hpe, hgs⟩

/-- A clean-up keeps the index sound. -/
theorem IndexSound_clean (g : GameSessionManager G) (ID : UUID) (hinv : IndexSound g) :
    IndexSound (clean g ID) := by
  intro p s hps
  simp only [clean] at hps ⊢
  by_cases hp : p ∈ (g.sessionAt ID).players
  · rw [GoMap.get?_foldl_delete_mem _ _ p hp] at hps
    cases hps
  · rw [GoMap.get?_foldl_delete_not_mem _ _ p hp] at hps
    obtain ⟨e, he, hpe, hgs⟩ := hinv p s hps
    have hne : ¬ ID = s := by
      intro heq
      apply hp
      rw [heq]
      simp only [GameSessionManager.sessionAt, he, Option.getD_some]
      exact hpe
    refine ⟨e, ?_, hpe, hgs⟩
    rw [GoMap.get?_delete, if_neg hne]
    exact he

theorem Reachable.indexSound (g : GameSessionManager G) (hreach : Reachable g) :
    IndexSound g := by
  induction hreach with
  | empty =>
    intro p s hps
    cases hps
  | save g g1 draws players gs sessionID _ hsave ih =>
    exact IndexSound_save g g1 draws players gs sessionID hsave ih
  | clean g ID _ ih => exact IndexSound_clean g ID ih

theorem registry2_reachable : Reachable registry2 :=
  Reachable.save registry1 registry2 [UUID.ofByte 102] [UUID.ofByte 1, UUID.ofByte 2] game3
    (UUID.ofByte 102)
    (Reachable.save NewGameSessionManager registry1 [UUID.ofByte 101]
      [UUID.ofByte 1, UUID.ofByte 2] game3 (UUID.ofByte 101) Reachable.empty rfl)
    rfl

end IndexLemmas

section IndexClaims

variable {G : Type}

/-- C11: in every registry state reached from the empty registry by any
sequence of registrations that return (`saveSession`) and clean-ups (`clean`),
with no restriction on the player ids registered, every entry p -> s of the
player index points at a session id s that is in the session table, whose
entry lists p and holds a game instance; so the expression `g.sessions[s]` of
`writePlayerRequest` is never the zero entry and the request is never sent to
a nil game instance. -/
theorem registry_index_sound (g : GameSessionManager G) (hreach : Reachable g) :
    (∀ p s, g.playerToSession.get? p = some s →
      ∃ e, g.sessions.get? s = some e ∧ p ∈ e.players ∧ e.gameSession ≠ none) ∧
    (∀ p s, g.playerToSession.get? p = some s →
      p ∈ (g.sessionAt s).players ∧ (g.sessionAt s).gameSession ≠ none) ∧
    (∀ pID actionType payload,
      writePlayerRequest g pID actionType payload ≠ .nilGameServer) := by
  have hinv := Reachable.indexSound g hreach
  have hat : ∀ p s, g.playerToSession.get? p = some s →
      p ∈ (g.sessionAt s).players ∧ (g.sessionAt s).gameSession ≠ none := by
    intro p s hps
    obtain ⟨e, he, hpe, hgs⟩ := hinv p s hps
    simp only [GameSessionManager.sessionAt, he, Option.getD_some]
    exact ⟨hpe, hgs⟩
  refine ⟨hinv, hat, ?_⟩
  intro pID actionType payload
  unfold writePlayerRequest
  cases hps : g.playerToSession.get? pID with
  | none =>
    intro h
    cases h
  | some s =>
    have hgs := (hat pID s hps).2
    cases hg : (g.sessionAt s).gameSession with
    | none => exact absurd hg hgs
    | some gameServer =>
      intro h
      simp only [hg] at h
      cases h

theorem registry_index_sound_witness :
    Reachable registry2 ∧
    (∀ p s, registry2.playerToSession.get? p = some s →
      ∃ e, registry2.sessions.get? s = some e ∧ p ∈ e.players ∧ e.gameSession ≠ none) ∧
    writePlayerRequest registry2 (UUID.ofByte 1) 3 [] ≠ .nilGameServer :=
  ⟨registry2_reachable, (registry_index_sound registry2 registry2_reachable).1,
    (registry_index_sound registry2 registry2_reachable).2.2 (UUID.ofByte 1) 3 []⟩

end IndexClaims

end Vinom
